import Mathlib

/-!
Verification of the instruction-window resolver of pwndbg/disasm/__init__.py.

The embedding models the module's own code: the memoized single-instruction
resolver `get_one_instruction`, the sequential reader `get`, the
single-forward-step helper `one` (which writes the backward-link cache),
the bidirectional window resolver `near`, and the decoder session factory
`get_disassembler_cached`.  External collaborators (memory reads, the
capstone decoder plus the enrichment hook, the register file, and the
emulator) are parameters gathered in an `Env` record, exactly as the
module consumes them.  Mutable module-level state (the memoization table
of `get_one_instruction` and `backward_cache`) is threaded explicitly as a
`DisasmState`.
-/

namespace PwndbgDisasm

/-- capstone instruction-group identifiers, from capstone.h. -/
def CS_GRP_INVALID : Nat := 0

def CS_GRP_JUMP : Nat := 1

def CS_GRP_CALL : Nat := 2

def CS_GRP_RET : Nat := 3

def CS_GRP_INT : Nat := 4

def CS_GRP_IRET : Nat := 5

def CS_GRP_PRIVILEGE : Nat := 6

/-- capstone architecture identifiers, from capstone.h. -/
def CS_ARCH_ARM : Nat := 0

def CS_ARCH_ARM64 : Nat := 1

def CS_ARCH_MIPS : Nat := 2

def CS_ARCH_X86 : Nat := 3

def CS_ARCH_PPC : Nat := 4

def CS_ARCH_SPARC : Nat := 5

/-- capstone mode flags, from capstone.h. -/
def CS_MODE_LITTLE_ENDIAN : Nat := 0

def CS_MODE_BIG_ENDIAN : Nat := 2 ^ 31

def CS_MODE_32 : Nat := 4

def CS_MODE_64 : Nat := 8

/-- One decoded, enhancement-annotated instruction.  Per the data model,
`next` (the fall-through address) is derived as `address + size`, so it is
a function rather than a stored field; `target` is the statically resolved
control-flow destination supplied by the enrichment hook. -/
structure Instruction where
  address : Nat
  size : Nat
  target : Nat
  groups : List Nat
deriving DecidableEq

/-- Fall-through address: `address + size`, regardless of control-flow
semantics (data model of the spec; the enrichment hook that computes it is
outside this module). -/
def Instruction.next (i : Instruction) : Nat := i.address + i.size

/-- External collaborators consumed by the module: `pwndbg.memory.peek`,
the body of `get_one_instruction` past the memo (memory read, capstone
decode of one instruction and enhancement, yielding an `Instruction` or
nothing), `pwndbg.regs.pc`, availability of an emulation backend for the
current architecture, and the emulator's `single_step` results as a stream
indexed by how many times a fresh `Emulator()` has been stepped. -/
structure Env where
  peek : Nat → Bool
  decode : Nat → Option Instruction
  pc : Nat
  emuAvail : Bool
  emuStep : Nat → Option Nat × Option Nat

/-- Module-level mutable state: the memoization table of
`get_one_instruction` for the current execution generation, and
`backward_cache` (a defaultdict whose misses read as `none`). -/
structure DisasmState where
  memo : Nat → Option (Option Instruction)
  backward_cache : Nat → Option Nat

/-- State with empty memoization table and empty backward-link cache. -/
def emptyState : DisasmState := DisasmState.mk (fun _ => none) (fun _ => none)

/-- Modelled from the spec: the decorator `pwndbg.memoize.reset_on_cont`
wrapping `get_one_instruction` is not under src/; per the spec the result
is memoized keyed by (address, execution generation) and a second call
with the same key returns the cached value without re-reading memory or
re-decoding.  Within one generation this is a lookup table over addresses.
The wrapped body (memory read with partial=True, one-instruction capstone
decode, enhancement) is the external `Env.decode`.  The returned flag
records whether the body ran (i.e. whether memory was read and decoded). -/
def get_one_instruction (env : Env) (s : DisasmState) (address : Nat) :
    Option Instruction × DisasmState × Bool :=
  match s.memo address with
  | some r => (r, s, false)
  | none =>
      let r := env.decode address
      (r, DisasmState.mk (fun a => if a = address then some r else s.memo a)
            s.backward_cache, true)

/-- Loop body of `get`: repeatedly decode one instruction and advance to
its fall-through address, stopping at the first decode failure. -/
def getLoop (env : Env) (fuel : Nat) (s : DisasmState) (address : Nat) :
    List Instruction × DisasmState :=
  match fuel with
  | 0 => ([], s)
  | Nat.succ n =>
      let q := get_one_instruction env s address
      match q.1 with
      | none => ([], q.2.1)
      | some i =>
          let r := getLoop env n q.2.1 i.next
          (i :: r.1, r.2)

/-- Model of `get(address, instructions)`: return no instructions when the
address is not readable, else decode up to `instructions` consecutive
instructions following fall-through addresses. -/
def get (env : Env) (s : DisasmState) (address : Nat) (instructions : Nat) :
    List Instruction × DisasmState :=
  if env.peek address then getLoop env instructions s address else ([], s)

/-- Model of `one(address)`: peek the address, decode a single instruction
there, and on success record `backward_cache[insn.next] = insn.address`.
The Python default `address=None` (resolving at the live pc) is applied by
callers; `near` always passes an explicit address. -/
def one (env : Env) (s : DisasmState) (address : Nat) :
    Option Instruction × DisasmState :=
  if env.peek address then
    let p := get env s address 1
    match p.1 with
    | [] => (none, p.2)
    | insn :: _ =>
        (some insn,
         DisasmState.mk p.2.memo
           (fun x => if x = insn.next then some insn.address else p.2.backward_cache x))
  else (none, s)

/-- Model of the Python expression `one(cached) if cached else None` used
by the backward pass: a cached predecessor address is consulted only when
it is truthy, i.e. present and nonzero. -/
def oneIfTruthy (env : Env) (s : DisasmState) (cached : Option Nat) :
    Option Instruction × DisasmState :=
  match cached with
  | none => (none, s)
  | some c => if c = 0 then (none, s) else one env s c

/-- Backward pass of `near`: starting from an already-resolved candidate
predecessor, keep following `backward_cache` entries, collecting at most
`fuel` (= `instructions`) predecessors in decreasing-address order. -/
def backLoop (env : Env) (s : DisasmState) (insn : Option Instruction) (fuel : Nat) :
    List Instruction × DisasmState :=
  match insn, fuel with
  | none, _ => ([], s)
  | some _, 0 => ([], s)
  | some i, Nat.succ n =>
      let p := oneIfTruthy env s (s.backward_cache i.address)
      let r := backLoop env p.2 p.1 n
      (i :: r.1, r.2)

/-- Unsafe-to-emulate instruction classes (`DO_NOT_EMULATE` in the
source): call, software interrupt, invalid, interrupt-return.
`CS_GRP_PRIVILEGE` is deliberately excluded. -/
def DO_NOT_EMULATE : List Nat := [CS_GRP_CALL, CS_GRP_INT, CS_GRP_INVALID, CS_GRP_IRET]

/-- Truth of the Python test `set(insn.groups) & DO_NOT_EMULATE`: the
instruction's group set meets the unsafe-to-emulate set. -/
def hitsDoNotEmulate (i : Instruction) : Bool :=
  i.groups.any (fun g => DO_NOT_EMULATE.contains g)

/-- One iteration of the forward pass of `near`, choosing where to
disassemble next.  Returns `(target, emulate, emu, usedEmu)`: the chosen
next address, the emulation flag and emulator handle to carry into the
next iteration, and whether `single_step` was invoked this iteration.
Mirrors lines 199-222 of the source: start from the static target;
disable emulation on an unsafe class; step over calls via the
fall-through; else consult the emulator when present; else follow the
static target only when it equals the live pc. -/
def stepChoice (env : Env) (insn : Instruction) (emulate : Bool) (emu : Option Nat) :
    Nat × Bool × Option Nat × Bool :=
  let emulate1 := if emulate && hitsDoNotEmulate insn then false else emulate
  let emu1 := if emulate && hitsDoNotEmulate insn then none else emu
  if insn.groups.contains CS_GRP_CALL then (insn.next, emulate1, emu1, false)
  else
    match emu1 with
    | some k =>
        match (env.emuStep k).1, (env.emuStep k).2 with
        | some t, some _ => (t, emulate1, some (k + 1), true)
        | none, _ => (insn.target, emulate1, some (k + 1), true)
        | _, none => (insn.target, emulate1, some (k + 1), true)
    | none =>
        if insn.target != env.pc then (insn.next, emulate1, none, false)
        else (insn.target, emulate1, none, false)

/-- Trace record for one iteration of the forward pass: the instruction
being processed, the emulation flag and emulator presence at iteration
entry, whether the emulator was single-stepped, the chosen next address,
and the instruction appended (if resolution at that address succeeded). -/
structure FwdStep where
  cur : Instruction
  emulateAtEntry : Bool
  emuAtEntry : Bool
  usedEmu : Bool
  nextAddr : Nat
  appended : Option Instruction
deriving DecidableEq

/-- Forward pass of `near` (the `while insn and len(insns) < total` loop):
`fuel` is the remaining room in the window, and each iteration appends at
most one instruction, stopping early when resolution fails. -/
def fwdLoop (env : Env) (s : DisasmState) (insn : Instruction) (fuel : Nat)
    (emulate : Bool) (emu : Option Nat) : List FwdStep × DisasmState :=
  match fuel with
  | 0 => ([], s)
  | Nat.succ n =>
      let c := stepChoice env insn emulate emu
      let p := one env s c.1
      let step := FwdStep.mk insn emulate emu.isSome c.2.2.2 c.1 p.1
      match p.1 with
      | none => ([step], p.2)
      | some j =>
          let r := fwdLoop env p.2 j n c.2.1 c.2.2.1
          (step :: r.1, r.2)

/-- Initialization of the emulator handle: created only when the anchor
address equals the live pc and emulation is (still) requested; its first
`single_step` result is discarded as warm-up, so the step counter starts
at 1. -/
def initEmu (address pc : Nat) (em1 : Bool) : Option Nat :=
  if (address == pc) && em1 then some 1 else none

/-- Result of a `near` call: the returned instruction window, the list of
predecessors collected by the backward pass (newest first, as collected),
the forward-pass trace, and the final module state. -/
structure NearResult where
  insns : List Instruction
  before : List Instruction
  trace : List FwdStep
  state : DisasmState

/-- Body of `near` once the anchor instruction resolved and the anchor
passed the readability probe: backward pass through `backward_cache`,
emulator setup, then the bounded forward pass. -/
def nearBody (env : Env) (s1 : DisasmState) (current : Instruction)
    (address instructions : Nat) (emulate : Bool) : NearResult :=
  let p1 := oneIfTruthy env s1 (s1.backward_cache current.address)
  let p2 := backLoop env p1.2 p1.1 instructions
  let insns0 := p2.1.reverse ++ [current]
  let em1 := emulate && env.emuAvail
  let emu0 := initEmu address env.pc em1
  let p3 := fwdLoop env p2.2 current (1 + 2 * instructions - insns0.length) em1 emu0
  NearResult.mk (insns0 ++ p3.1.filterMap (fun st => st.appended)) p2.1 p3.1 p3.2

/-- Model of `near(address, instructions, emulate)`: resolve the anchor,
return an empty window when that fails or the anchor is unreadable, else
run the backward and forward passes. -/
def near (env : Env) (s : DisasmState) (address : Nat) (instructions : Nat)
    (emulate : Bool) : NearResult :=
  let p := one env s address
  match p.1 with
  | none => NearResult.mk [] [] [] p.2
  | some current =>
      if env.peek address then nearBody env p.2 current address instructions emulate
      else NearResult.mk [] [] [] p.2

/-- Configuration errors of the decoder session factory, named as in the
spec; each corresponds to a failing dictionary lookup in the source. -/
inductive ConfigError where
  | UnsupportedArchitecture
  | UnsupportedPointerWidth
  | UnsupportedEndianness
deriving DecidableEq

/-- A configured capstone handle: architecture, mode flags, and the
`detail = True` setting. -/
structure Cs where
  arch : Nat
  mode : Nat
  detail : Bool
deriving DecidableEq

/-- The `CapstoneArch` dictionary of the source. -/
def CapstoneArch : List (String × Nat) :=
  [("arm", CS_ARCH_ARM), ("aarch64", CS_ARCH_ARM64), ("i386", CS_ARCH_X86),
   ("x86-64", CS_ARCH_X86), ("powerpc", CS_ARCH_PPC), ("mips", CS_ARCH_MIPS),
   ("sparc", CS_ARCH_SPARC)]

/-- The `CapstoneEndian` dictionary of the source. -/
def CapstoneEndian : List (String × Nat) :=
  [("little", CS_MODE_LITTLE_ENDIAN), ("big", CS_MODE_BIG_ENDIAN)]

/-- The `CapstoneMode` dictionary of the source, keyed by pointer width. -/
def CapstoneMode : List (Nat × Nat) :=
  [(4, CS_MODE_32), (8, CS_MODE_64)]

/-- Model of `get_disassembler_cached(arch, ptrsize, endian, extra)`: look
up the architecture, then (only when `extra` is absent) the pointer-width
mode, then or-in the endianness flag; each failing lookup signals the
corresponding configuration error.  When `extra` is present it replaces
the width-derived mode entirely and the pointer width is never consulted. -/
def get_disassembler_cached (arch : String) (ptrsize : Nat) (endian : String)
    (extra : Option Nat) : Except ConfigError Cs :=
  match List.lookup arch CapstoneArch with
  | none => Except.error ConfigError.UnsupportedArchitecture
  | some csarch =>
      match (match extra with
             | none => List.lookup ptrsize CapstoneMode
             | some e => some e) with
      | none => Except.error ConfigError.UnsupportedPointerWidth
      | some mode0 =>
          match List.lookup endian CapstoneEndian with
          | none => Except.error ConfigError.UnsupportedEndianness
          | some emode => Except.ok (Cs.mk csarch (Nat.lor mode0 emode) true)

/-- The memoization table agrees with the decoder: every stored entry is
what decoding at that address yields.  This is the fixed-generation,
fixed-memory hypothesis: all entries of the current generation were
produced by the same decode function. -/
def Consistent (env : Env) (s : DisasmState) : Prop :=
  ∀ a r, s.memo a = some r → r = env.decode a

/-- Environment backed by a finite instruction table: an address is
readable exactly when the table holds an instruction at it, the decoder
returns that instruction, and no emulation backend is available. -/
def tableEnv (tbl : List Instruction) (pc : Nat) : Env :=
  Env.mk (fun a => (tbl.find? (fun i => i.address == a)).isSome)
    (fun a => tbl.find? (fun i => i.address == a)) pc false (fun _ => (none, none))

/-- Call-class instruction at 10 with branch target 50 (fall-through 13). -/
def c2i : Instruction := Instruction.mk 10 3 50 [CS_GRP_CALL]

def c2env : Env := tableEnv [c2i] 0

/-- Expected first forward step when `near` is anchored at `c2i`. -/
def c2step : FwdStep := FwdStep.mk c2i false false false 13 none

/-- Interrupt-class instruction at 10 (unsafe to emulate). -/
def c4a : Instruction := Instruction.mk 10 2 12 [CS_GRP_INT]

def c4b : Instruction := Instruction.mk 12 2 14 []

def c4env : Env := tableEnv [c4a, c4b] 0

def c4step0 : FwdStep := FwdStep.mk c4a false false false 12 (some c4b)

def c4step1 : FwdStep := FwdStep.mk c4b false false false 14 none

/-- Plain non-call instruction at 10 with static target 99 ≠ pc. -/
def c6i : Instruction := Instruction.mk 10 3 99 []

def c6env : Env := tableEnv [c6i] 0

def c6step : FwdStep := FwdStep.mk c6i false false false 13 none

/-- Environment with no readable memory at all. -/
def env7 : Env := tableEnv [] 0

def c10i : Instruction := Instruction.mk 10 2 12 []

def c10env : Env := tableEnv [c10i] 0

/-- State after resolving `c10i` through `one`. -/
def c10s : DisasmState := (one c10env emptyState 10).2

/-- Instruction at address 0: its resolution records a backward link, but
the backward pass later discards a cached address 0 as falsy. -/
def cA0 : Instruction := Instruction.mk 0 3 3 []

def cB3 : Instruction := Instruction.mk 3 3 6 []

def envC3 : Env := tableEnv [cA0, cB3] 100

/-- State after `one(0)` resolved `cA0`, recording backward link 3 ↦ 0. -/
def stC3 : DisasmState := (one envC3 emptyState 0).2

/-- Predecessor/anchor pair at nonzero addresses for the amended C3. -/
def c3wA : Instruction := Instruction.mk 10 2 20 []

def c3wB : Instruction := Instruction.mk 12 2 30 []

def c3wenv : Env := tableEnv [c3wA, c3wB] 0

/-- State already holding the backward link 12 ↦ 10 from a prior pass. -/
def c3wst : DisasmState :=
  DisasmState.mk (fun _ => none) (fun x => if x = 12 then some 10 else none)

/-- The three-instruction stream of the spec's concrete scenario: 100
(plain), 103 (direct jump to 200), 200 (plain); 106 and 203 unmapped. -/
def i100 : Instruction := Instruction.mk 100 3 103 []

def i103 : Instruction := Instruction.mk 103 3 200 [CS_GRP_JUMP]

def i200 : Instruction := Instruction.mk 200 3 203 []

/-- Scenario environment whose live pc sits at the jump target 200. -/
def env5 : Env := tableEnv [i100, i103, i200] 200

/-- Scenario environment whose live pc is elsewhere (at 0). -/
def env5bad : Env := tableEnv [i100, i103, i200] 0

/-- Scenario state with 100 recorded as 103's predecessor. -/
def st5c : DisasmState :=
  DisasmState.mk (fun _ => none) (fun x => if x = 103 then some 100 else none)

/-! Helper lemmas shared by the claim theorems. -/

theorem backLoop_length_le (env : Env) :
    ∀ (fuel : Nat) (s : DisasmState) (insn : Option Instruction),
      (backLoop env s insn fuel).1.length ≤ fuel := by
  intro fuel
  induction fuel with
  | zero =>
      intro s insn
      cases insn <;> simp [backLoop]
  | succ n ih =>
      intro s insn
      cases insn with
      | none => simp [backLoop]
      | some i =>
          simp only [backLoop, List.length_cons]
          exact Nat.succ_le_succ (ih _ _)

theorem fwdLoop_filterMap_le (env : Env) :
    ∀ (fuel : Nat) (s : DisasmState) (insn : Instruction) (em : Bool) (emu : Option Nat),
      ((fwdLoop env s insn fuel em emu).1.filterMap (fun st => st.appended)).length ≤ fuel := by
  intro fuel
  induction fuel with
  | zero =>
      intro s insn em emu
      simp [fwdLoop]
  | succ n ih =>
      intro s insn em emu
      simp only [fwdLoop]
      rcases h : (one env s (stepChoice env insn em emu).1).1 with _ | j
      · simp [h]
      · simp only [h, List.filterMap_cons, List.length_cons]
        exact Nat.succ_le_succ (ih _ _ _ _)

theorem nearBody_length (env : Env) (s1 : DisasmState) (current : Instruction)
    (address instructions : Nat) (emulate : Bool) :
    (nearBody env s1 current address instructions emulate).insns.length ≤
        2 * instructions + 1 ∧
      (nearBody env s1 current address instructions emulate).before.length ≤ instructions := by
  have h1 : (backLoop env (oneIfTruthy env s1 (s1.backward_cache current.address)).2
      (oneIfTruthy env s1 (s1.backward_cache current.address)).1 instructions).1.length ≤
        instructions := backLoop_length_le env instructions _ _
  have h2 := fwdLoop_filterMap_le env
    (1 + 2 * instructions -
      ((backLoop env (oneIfTruthy env s1 (s1.backward_cache current.address)).2
          (oneIfTruthy env s1 (s1.backward_cache current.address)).1 instructions).1.reverse ++
        [current]).length)
    (backLoop env (oneIfTruthy env s1 (s1.backward_cache current.address)).2
      (oneIfTruthy env s1 (s1.backward_cache current.address)).1 instructions).2
    current (emulate && env.emuAvail) (initEmu address env.pc (emulate && env.emuAvail))
  simp only [nearBody]
  simp only [List.length_append, List.length_reverse, List.length_cons,
    List.length_nil] at h2 ⊢
  omega

/-- C1: the window returned by `near` never exceeds `2*count + 1`
instructions, and the backward pass collects at most `count` instructions
before the anchor; the forward pass stops appending once the total reaches
`2*count + 1`. -/
theorem near_window_size_bound (env : Env) (s : DisasmState) (address count : Nat)
    (emulate : Bool) :
    (near env s address count emulate).insns.length ≤ 2 * count + 1 ∧
      (near env s address count emulate).before.length ≤ count := by
  simp only [near]
  rcases h : (one env s address).1 with _ | current
  · simp
  · by_cases hp : env.peek address
    · simp only [hp, if_true]
      exact nearBody_length env _ current address count emulate
    · simp [hp]

theorem stepChoice_call (env : Env) (insn : Instruction) (em : Bool) (emu : Option Nat)
    (h : insn.groups.contains CS_GRP_CALL = true) :
    (stepChoice env insn em emu).1 = insn.next := by
  have h' : CS_GRP_CALL ∈ insn.groups := by simpa using h
  simp [stepChoice, h']

theorem stepChoice_none_emu (env : Env) (insn : Instruction) (em : Bool) :
    (stepChoice env insn em none).2.2.1 = none := by
  simp only [stepChoice, ite_self]
  split
  · rfl
  · split <;> rfl

theorem stepChoice_none_used (env : Env) (insn : Instruction) (em : Bool) :
    (stepChoice env insn em none).2.2.2 = false := by
  simp only [stepChoice, ite_self]
  split
  · rfl
  · split <;> rfl

theorem stepChoice_none_ft (env : Env) (insn : Instruction) (em : Bool)
    (_hc : insn.groups.contains CS_GRP_CALL = false) (ht : insn.target ≠ env.pc) :
    (stepChoice env insn em none).1 = insn.next := by
  simp [stepChoice, ite_self, bne_iff_ne, ht]

theorem stepChoice_none_pc (env : Env) (insn : Instruction) (em : Bool)
    (hc : insn.groups.contains CS_GRP_CALL = false) (ht : insn.target = env.pc) :
    (stepChoice env insn em none).1 = insn.target := by
  have hc2 : CS_GRP_CALL ∉ insn.groups := by simpa using hc
  simp [stepChoice, ite_self, hc2, bne_iff_ne, ht]

theorem stepChoice_emulate_eq (env : Env) (insn : Instruction) (em : Bool) (emu : Option Nat) :
    (stepChoice env insn em emu).2.1 = (if em && hitsDoNotEmulate insn then false else em) := by
  simp only [stepChoice]
  split
  · rfl
  · split
    · split <;> rfl
    · split <;> rfl

theorem stepChoice_hit_kills (env : Env) (insn : Instruction) (emu : Option Nat)
    (hhit : hitsDoNotEmulate insn = true) :
    (stepChoice env insn true emu).2.2.1 = none := by
  simp only [stepChoice, hhit, Bool.true_and, if_true]
  split
  · rfl
  · split <;> rfl

theorem stepChoice_kills (env : Env) (insn : Instruction) (em : Bool) (emu : Option Nat)
    (hinv : emu = none ∨ em = true) (hhit : hitsDoNotEmulate insn = true) :
    (stepChoice env insn em emu).2.2.1 = none := by
  cases em with
  | true => exact stepChoice_hit_kills env insn emu hhit
  | false =>
      rcases hinv with rfl | h
      · exact stepChoice_none_emu env insn false
      · exact absurd h (by simp)

theorem stepChoice_inv_pres (env : Env) (insn : Instruction) (em : Bool) (emu : Option Nat)
    (hinv : emu = none ∨ em = true) :
    (stepChoice env insn em emu).2.2.1 = none ∨ (stepChoice env insn em emu).2.1 = true := by
  rcases hinv with rfl | h
  · exact Or.inl (stepChoice_none_emu env insn em)
  · by_cases hhit : hitsDoNotEmulate insn = true
    · exact Or.inl (stepChoice_kills env insn em emu (Or.inr h) hhit)
    · right
      rw [stepChoice_emulate_eq]
      simp only [Bool.not_eq_true] at hhit
      simp [hhit, h]

theorem initEmu_inv (address pc : Nat) (em1 : Bool) :
    initEmu address pc em1 = none ∨ em1 = true := by
  cases hc : ((address == pc) && em1) with
  | true =>
      right
      have hc2 := hc
      simp only [Bool.and_eq_true] at hc2
      exact hc2.2
  | false => exact Or.inl (by simp [initEmu, hc])

theorem fwdLoop_no_emu_used (env : Env) :
    ∀ (fuel : Nat) (s : DisasmState) (insn : Instruction) (em : Bool),
      ∀ step ∈ (fwdLoop env s insn fuel em none).1, step.usedEmu = false := by
  intro fuel
  induction fuel with
  | zero =>
      intro s insn em step h
      simp [fwdLoop] at h
  | succ n ih =>
      intro s insn em step h
      simp only [fwdLoop] at h
      rcases hone : (one env s (stepChoice env insn em none).1).1 with _ | j <;>
        rw [hone] at h
      · simp only [List.mem_singleton] at h
        subst h
        exact stepChoice_none_used env insn em
      · rcases List.mem_cons.mp h with rfl | hmem
        · exact stepChoice_none_used env insn em
        · rw [stepChoice_none_emu env insn em] at hmem
          exact ih _ _ _ step hmem

theorem fwdLoop_call_next (env : Env) :
    ∀ (fuel : Nat) (s : DisasmState) (insn : Instruction) (em : Bool) (emu : Option Nat),
      ∀ step ∈ (fwdLoop env s insn fuel em emu).1,
        step.cur.groups.contains CS_GRP_CALL = true →
          step.nextAddr = step.cur.next ∧
            (step.cur.target ≠ step.cur.next → step.nextAddr ≠ step.cur.target) := by
  intro fuel
  induction fuel with
  | zero =>
      intro s insn em emu step h
      simp [fwdLoop] at h
  | succ n ih =>
      intro s insn em emu step h hcall
      simp only [fwdLoop] at h
      rcases hone : (one env s (stepChoice env insn em emu).1).1 with _ | j <;>
        rw [hone] at h
      · simp only [List.mem_singleton] at h
        subst h
        have hn := stepChoice_call env insn em emu hcall
        refine ⟨hn, fun hne => ?_⟩
        rw [hn]
        exact fun hx => hne hx.symm
      · rcases List.mem_cons.mp h with rfl | hmem
        · have hn := stepChoice_call env insn em emu hcall
          refine ⟨hn, fun hne => ?_⟩
          rw [hn]
          exact fun hx => hne hx.symm
        · exact ih _ _ _ _ step hmem hcall

theorem fwdLoop_fallthrough (env : Env) :
    ∀ (fuel : Nat) (s : DisasmState) (insn : Instruction) (em : Bool) (emu : Option Nat),
      ∀ step ∈ (fwdLoop env s insn fuel em emu).1,
        step.cur.groups.contains CS_GRP_CALL = false →
          step.emuAtEntry = false →
            (step.cur.target ≠ env.pc → step.nextAddr = step.cur.next) ∧
              (step.cur.target = env.pc → step.nextAddr = step.cur.target) := by
  intro fuel
  induction fuel with
  | zero =>
      intro s insn em emu step h
      simp [fwdLoop] at h
  | succ n ih =>
      intro s insn em emu step h hcall hemu
      simp only [fwdLoop] at h
      rcases hone : (one env s (stepChoice env insn em emu).1).1 with _ | j <;>
        rw [hone] at h
      · simp only [List.mem_singleton] at h
        subst h
        simp only at hemu hcall
        cases emu with
        | some k => simp at hemu
        | none =>
            exact ⟨fun ht => stepChoice_none_ft env insn em hcall ht,
                   fun ht => stepChoice_none_pc env insn em hcall ht⟩
      · rcases List.mem_cons.mp h with rfl | hmem
        · simp only at hemu hcall
          cases emu with
          | some k => simp at hemu
          | none =>
              exact ⟨fun ht => stepChoice_none_ft env insn em hcall ht,
                     fun ht => stepChoice_none_pc env insn em hcall ht⟩
        · exact ih _ _ _ _ step hmem hcall hemu

theorem fwdLoop_shutoff (env : Env) :
    ∀ (fuel : Nat) (s : DisasmState) (insn : Instruction) (em : Bool) (emu : Option Nat),
      (emu = none ∨ em = true) →
        ∀ (l1 : List FwdStep) (t1 : FwdStep) (l2 : List FwdStep) (t2 : FwdStep)
          (l3 : List FwdStep),
          (fwdLoop env s insn fuel em emu).1 = l1 ++ (t1 :: (l2 ++ (t2 :: l3))) →
            hitsDoNotEmulate t1.cur = true → t2.usedEmu = false := by
  intro fuel
  induction fuel with
  | zero =>
      intro s insn em emu _ l1 t1 l2 t2 l3 h _
      rw [fwdLoop] at h
      have := congrArg List.length h
      simp at this
      omega
  | succ n ih =>
      intro s insn em emu hinv l1 t1 l2 t2 l3 h hhit
      simp only [fwdLoop] at h
      rcases hone : (one env s (stepChoice env insn em emu).1).1 with _ | j <;>
        rw [hone] at h
      · have := congrArg List.length h
        simp at this
        omega
      · cases l1 with
        | nil =>
            simp only [List.nil_append] at h
            rw [List.cons.injEq] at h
            obtain ⟨ht1, hrest⟩ := h
            have hnone : (stepChoice env insn em emu).2.2.1 = none :=
              stepChoice_kills env insn em emu hinv
                (by rw [← ht1] at hhit; simpa using hhit)
            rw [hnone] at hrest
            refine fwdLoop_no_emu_used env n (one env s (stepChoice env insn em emu).1).2 j
              (stepChoice env insn em emu).2.1 t2 ?_
            rw [hrest]
            exact List.mem_append_right l2 (List.mem_cons_self t2 l3)
        | cons a l1t =>
            simp only [List.cons_append] at h
            rw [List.cons.injEq] at h
            obtain ⟨_, hrest⟩ := h
            exact ih _ _ _ _ (stepChoice_inv_pres env insn em emu hinv) l1t t1 l2 t2 l3
              hrest hhit

theorem near_trace_cases (env : Env) (s : DisasmState) (address count : Nat) (em : Bool) :
    (near env s address count em).trace = [] ∨
      ∃ s3 cur fuel em1 emu0, (emu0 = none ∨ em1 = true) ∧
        (near env s address count em).trace = (fwdLoop env s3 cur fuel em1 emu0).1 := by
  simp only [near]
  rcases h : (one env s address).1 with _ | current
  · simp
  · by_cases hp : env.peek address
    · simp only [hp, if_true]
      right
      exact ⟨_, current, _, em && env.emuAvail, initEmu address env.pc (em && env.emuAvail),
        initEmu_inv address env.pc (em && env.emuAvail), rfl⟩
    · simp [hp]

/-- C2: in the forward pass of `near`, whenever the current instruction is
call-class, the next instruction is resolved at the call's fall-through
address `cur.next`, never at its branch target. -/
theorem near_call_skip (env : Env) (s : DisasmState) (address count : Nat) (em : Bool) :
    ∀ step ∈ (near env s address count em).trace,
      step.cur.groups.contains CS_GRP_CALL = true →
        step.nextAddr = step.cur.next ∧
          (step.cur.target ≠ step.cur.next → step.nextAddr ≠ step.cur.target) := by
  intro step hstep hcall
  rcases near_trace_cases env s address count em with h | ⟨s3, cur, fuel, em1, emu0, _, h⟩
  · rw [h] at hstep
    simp at hstep
  · rw [h] at hstep
    exact fwdLoop_call_next env fuel s3 cur em1 emu0 step hstep hcall

/-- C4: once a forward pass of `near` meets an instruction in an
unsafe-to-emulate class (call, interrupt, invalid, interrupt-return), no
later iteration of the same pass invokes the emulator's single_step. -/
theorem near_emulation_shutoff (env : Env) (s : DisasmState) (address count : Nat)
    (em : Bool) (l1 : List FwdStep) (t1 : FwdStep) (l2 : List FwdStep) (t2 : FwdStep)
    (l3 : List FwdStep)
    (h : (near env s address count em).trace = l1 ++ (t1 :: (l2 ++ (t2 :: l3))))
    (hhit : hitsDoNotEmulate t1.cur = true) : t2.usedEmu = false := by
  rcases near_trace_cases env s address count em with he | ⟨s3, cur, fuel, em1, emu0, hinv, htr⟩
  · rw [he] at h
    have := congrArg List.length h
    simp at this
    omega
  · rw [htr] at h
    exact fwdLoop_shutoff env fuel s3 cur em1 emu0 hinv l1 t1 l2 t2 l3 h hhit

/-- C6: in the forward pass of `near`, for a non-call instruction with no
emulator active, the next address resolved is the fall-through `cur.next`
whenever the static target differs from the live pc, and the target
address is used exactly when it equals the live pc. -/
theorem near_fallthrough_rule (env : Env) (s : DisasmState) (address count : Nat) (em : Bool) :
    ∀ step ∈ (near env s address count em).trace,
      step.cur.groups.contains CS_GRP_CALL = false →
        step.emuAtEntry = false →
          (step.cur.target ≠ env.pc → step.nextAddr = step.cur.next) ∧
            (step.cur.target = env.pc → step.nextAddr = step.cur.target) := by
  intro step hstep hcall hemu
  rcases near_trace_cases env s address count em with h | ⟨s3, cur, fuel, em1, emu0, _, h⟩
  · rw [h] at hstep
    simp at hstep
  · rw [h] at hstep
    exact fwdLoop_fallthrough env fuel s3 cur em1 emu0 step hstep hcall hemu

/-- C7: when the anchor address fails the readability probe, or no
instruction resolves at the anchor, `near` returns the empty sequence
(instead of signalling an error). -/
theorem near_empty_on_unresolvable (env : Env) (s : DisasmState) (address count : Nat)
    (em : Bool)
    (h : env.peek address = false ∨ (one env s address).1 = none) :
    (near env s address count em).insns = [] := by
  have hnone : (one env s address).1 = none := by
    rcases h with h | h
    · simp [one, h]
    · exact h
  simp [near, hnone]

/-- C8: within one execution generation (one memoization table) and fixed
memory, calling the single-instruction resolver twice at the same address
returns the identical instruction record both times, and the second call
is served from the memoization table without re-reading memory or
re-decoding (its decode flag is false). -/
theorem get_one_instruction_memoized (env : Env) (s : DisasmState) (address : Nat) :
    (get_one_instruction env (get_one_instruction env s address).2.1 address).1 =
        (get_one_instruction env s address).1 ∧
      (get_one_instruction env (get_one_instruction env s address).2.1 address).2.2 =
        false := by
  rcases hm : s.memo address with _ | r
  · simp [get_one_instruction, hm]
  · simp [get_one_instruction, hm]

theorem get_one_cache_eq (env : Env) (s : DisasmState) (a : Nat) :
    (get_one_instruction env s a).2.1.backward_cache = s.backward_cache := by
  rcases hm : s.memo a with _ | r <;> simp [get_one_instruction, hm]

/-- C10: every successful `one(X)` call records the backward link for X's
fall-through address (pointing back at X's address) unconditionally, while
the memoized single-instruction resolver never writes the backward-link
cache. -/
theorem one_writes_backward_cache (env : Env) (s : DisasmState) (address : Nat)
    (i : Instruction) (s2 : DisasmState) (env2 : Env) (t : DisasmState) (b : Nat)
    (h : one env s address = (some i, s2)) :
    s2.backward_cache i.next = some i.address ∧
      (get_one_instruction env2 t b).2.1.backward_cache = t.backward_cache := by
  refine ⟨?_, get_one_cache_eq env2 t b⟩
  by_cases hp : env.peek address
  · simp only [one, hp, if_true] at h
    rcases hg : (get env s address 1).1 with _ | ⟨j, rest⟩ <;> rw [hg] at h
    · exact absurd h (by simp)
    · rw [Prod.mk.injEq] at h
      obtain ⟨hj, hs⟩ := h
      obtain rfl : j = i := Option.some.inj hj
      rw [← hs]
      simp
  · simp only [one, hp, if_false] at h
    exact absurd h (by simp)

theorem get_one_eq_decode (env : Env) (s : DisasmState) (a : Nat)
    (hc : Consistent env s) :
    (get_one_instruction env s a).1 = env.decode a := by
  rcases hm : s.memo a with _ | r
  · simp [get_one_instruction, hm]
  · simp only [get_one_instruction, hm]
    exact hc a r hm

theorem get_one_consistent (env : Env) (s : DisasmState) (a : Nat)
    (hc : Consistent env s) :
    Consistent env (get_one_instruction env s a).2.1 := by
  rcases hm : s.memo a with _ | r
  · simp only [get_one_instruction, hm]
    intro x q hq
    by_cases hx : x = a
    · subst hx
      simp at hq
      exact hq.symm
    · simp only [hx, if_false] at hq
      exact hc x q hq
  · simp only [get_one_instruction, hm]
    exact hc

theorem one_resolves (env : Env) (s : DisasmState) (a : Nat) (i : Instruction)
    (hc : Consistent env s) (hp : env.peek a = true) (hd : env.decode a = some i) :
    (one env s a).1 = some i ∧ Consistent env (one env s a).2 ∧
      ∀ x, (one env s a).2.backward_cache x =
        if x = i.next then some i.address else s.backward_cache x := by
  have hcons1 := get_one_consistent env s a hc
  have hbc1 := get_one_cache_eq env s a
  have hg1 : (get_one_instruction env s a).1 = some i := by
    rw [get_one_eq_decode env s a hc, hd]
  have hget : get env s a 1 = ([i], (get_one_instruction env s a).2.1) := by
    simp [get, hp, getLoop, hg1]
  refine ⟨?_, ?_, ?_⟩
  · simp [one, hp, hget]
  · simp only [one, hp, if_true, hget]
    intro x q hq
    exact hcons1 x q hq
  · intro x
    simp only [one, hp, if_true, hget]
    rw [hbc1]

theorem backLoop_cons (env : Env) (s : DisasmState) (i : Instruction) (n : Nat) :
    ∃ tail s2, backLoop env s (some i) (n + 1) = (i :: tail, s2) :=
  ⟨_, _, rfl⟩

theorem infix_cons_reverse (tail : List Instruction) (A B : Instruction)
    (fm : List Instruction) :
    List.IsInfix [A, B] (((A :: tail).reverse ++ [B]) ++ fm) :=
  ⟨tail.reverse, fm, by simp⟩

/-- C3 (amended): if A's resolution left the backward-link entry for B's
address pointing at A (and nothing overwrote it), the anchor B still
resolves, the memoization table agrees with the decoder (same generation),
and A's address is nonzero — the backward pass treats a cached predecessor
address of 0 as absent — then a window anchored at B with `count ≥ 1`
contains A immediately before B. -/
theorem near_backward_correct (env : Env) (s : DisasmState) (A B : Instruction)
    (count : Nat) (em : Bool)
    (hcons : Consistent env s)
    (hpeekB : env.peek B.address = true)
    (hdecB : env.decode B.address = some B)
    (hsizeB : 0 < B.size)
    (hcache : s.backward_cache B.address = some A.address)
    (hA0 : A.address ≠ 0)
    (hpeekA : env.peek A.address = true)
    (hdecA : env.decode A.address = some A)
    (hcount : 1 ≤ count) :
    List.IsInfix [A, B] (near env s B.address count em).insns := by
  obtain ⟨c, rfl⟩ : ∃ c, count = c + 1 := ⟨count - 1, by omega⟩
  obtain ⟨h1, hcons1, hbc1⟩ := one_resolves env s B.address B hcons hpeekB hdecB
  have hBne : B.address ≠ B.next := by
    unfold Instruction.next
    omega
  have hBA : (one env s B.address).2.backward_cache B.address = some A.address := by
    rw [hbc1 B.address, if_neg hBne]
    exact hcache
  obtain ⟨h2, hcons2, hbc2⟩ :=
    one_resolves env (one env s B.address).2 A.address A hcons1 hpeekA hdecA
  simp only [near]
  rw [h1]
  simp only [hpeekB, if_true]
  simp only [nearBody]
  rw [hBA]
  simp only [oneIfTruthy]
  rw [if_neg hA0]
  rw [h2]
  obtain ⟨tail, s4, hbl⟩ :=
    backLoop_cons env (one env (one env s B.address).2 A.address).2 A c
  rw [hbl]
  exact infix_cons_reverse tail A B _

/-- C9 (amended): with a supported architecture, the decoder session
factory signals UnsupportedPointerWidth exactly when `extra` is absent and
the pointer width is outside {4, 8}; with a width in {4, 8}, or with any
`extra` present (which replaces the width-derived mode so the pointer
width is never consulted), it never signals UnsupportedPointerWidth. -/
theorem get_disassembler_cached_width (arch : String) (ptrsize : Nat) (endian : String)
    (extra : Option Nat) (m : Nat)
    (ha : (List.lookup arch CapstoneArch).isSome = true) :
    (extra = none → ptrsize ≠ 4 → ptrsize ≠ 8 →
        get_disassembler_cached arch ptrsize endian extra =
          Except.error ConfigError.UnsupportedPointerWidth) ∧
      ((ptrsize = 4 ∨ ptrsize = 8) →
        get_disassembler_cached arch ptrsize endian extra ≠
          Except.error ConfigError.UnsupportedPointerWidth) ∧
      (extra = some m →
        get_disassembler_cached arch ptrsize endian extra ≠
          Except.error ConfigError.UnsupportedPointerWidth) := by
  obtain ⟨csarch, hA⟩ := Option.isSome_iff_exists.mp ha
  refine ⟨?_, ?_, ?_⟩
  · intro hex h4 h8
    subst hex
    have e4 : (ptrsize == 4) = false := by simpa using h4
    have e8 : (ptrsize == 8) = false := by simpa using h8
    have hm : List.lookup ptrsize CapstoneMode = none := by
      simp [CapstoneMode, List.lookup, e4, e8]
    simp [get_disassembler_cached, hA, hm]
  · intro h48
    cases extra with
    | none =>
        have hm : ∃ mm, List.lookup ptrsize CapstoneMode = some mm := by
          rcases h48 with rfl | rfl
          · exact ⟨CS_MODE_32, rfl⟩
          · exact ⟨CS_MODE_64, rfl⟩
        obtain ⟨mm, hm⟩ := hm
        rcases he : List.lookup endian CapstoneEndian with _ | emode <;>
          simp [get_disassembler_cached, hA, hm, he]
    | some e =>
        rcases he : List.lookup endian CapstoneEndian with _ | emode <;>
          simp [get_disassembler_cached, hA, he]
  · intro hex
    subst hex
    rcases he : List.lookup endian CapstoneEndian with _ | emode <;>
      simp [get_disassembler_cached, hA, he]

/-- C9 counterexample: a call with pointer width 5 (outside the supported
set) but a present `extra` succeeds instead of signalling
UnsupportedPointerWidth — `extra` makes the factory skip the pointer-width
lookup entirely. -/
theorem get_disassembler_cached_extra_bypass :
    get_disassembler_cached ("i386") 5 ("little") (some 0) =
        Except.ok (Cs.mk CS_ARCH_X86 0 true) ∧
      ((5 : Nat) = 4 ∨ (5 : Nat) = 8 → False) ∧
      (Except.ok (Cs.mk CS_ARCH_X86 0 true) :
          Except ConfigError Cs) ≠
        Except.error ConfigError.UnsupportedPointerWidth := by
  refine ⟨rfl, by omega, ?_⟩
  intro h
  exact Except.noConfusion h

theorem consistent_of_none_memo (env : Env) (bc : Nat → Option Nat) :
    Consistent env (DisasmState.mk (fun _ => none) bc) := by
  intro a r h
  exact Option.noConfusion h

/-- C5 counterexample: in the scenario's instruction stream, with the live
program counter away from the jump target (pc = 0 here), the forward pass
takes the fall-through 106 (unmapped) instead of the jump target 200, so
the window stops at the anchor in both cache situations — refuting the
claimed `[100, 103, 200]` / `[103, 200]` results. -/
theorem near_scenario_pc_dependent_cex :
    (near env5bad emptyState 103 1 false).insns = [i103] ∧
      (near env5bad emptyState 103 1 false).insns ≠ [i103, i200] ∧
      (near env5bad st5c 103 1 false).insns = [i100, i103] ∧
      (near env5bad st5c 103 1 false).insns ≠ [i100, i103, i200] :=
  ⟨by decide, by decide, by decide, by decide⟩

/-- C5 (amended): the scenario's results hold when the live program
counter equals the direct jump's target 200 — the forward pass follows a
static branch target only at the live pc — giving `[103, 200]` with no
recorded predecessor and `[100, 103, 200]` when 100 was recorded as 103's
predecessor. -/
theorem near_scenario_follows_target :
    (near env5 emptyState 103 1 false).insns = [i103, i200] ∧
      (near env5 st5c 103 1 false).insns = [i100, i103, i200] :=
  ⟨by decide, by decide⟩

/-- C3 counterexample: instruction `cA0` at address 0 is resolved by `one`
and records the backward link for `cB3`'s address, yet a window anchored
at `cB3` omits it — the backward pass tests the cached address for Python
truthiness, so a predecessor at address 0 reads as absent. -/
theorem near_backward_zero_cex :
    (one envC3 emptyState 0).1 = some cA0 ∧
      cA0.next = cB3.address ∧
      stC3.backward_cache cB3.address = some cA0.address ∧
      ¬ List.IsInfix [cA0, cB3] (near envC3 stC3 3 1 false).insns := by
  refine ⟨by decide, by decide, by decide, ?_⟩
  intro hinf
  have h1 : (near envC3 stC3 3 1 false).insns = [cB3] := by decide
  rw [h1] at hinf
  have h2 := hinf.length_le
  simp at h2

/-! Witnesses: each applies its claim theorem at a concrete input,
discharging every hypothesis there. -/

theorem near_call_skip_witness :
    c2step.nextAddr = c2step.cur.next ∧
      (c2step.cur.target ≠ c2step.cur.next → c2step.nextAddr ≠ c2step.cur.target) :=
  near_call_skip c2env emptyState 10 1 false c2step (by decide) (by decide)

theorem near_emulation_shutoff_witness : c4step1.usedEmu = false :=
  near_emulation_shutoff c4env emptyState 10 1 false [] c4step0 [] c4step1 []
    (by decide) (by decide)

theorem near_fallthrough_rule_witness :
    (c6step.cur.target ≠ c6env.pc → c6step.nextAddr = c6step.cur.next) ∧
      (c6step.cur.target = c6env.pc → c6step.nextAddr = c6step.cur.target) :=
  near_fallthrough_rule c6env emptyState 10 1 false c6step (by decide) (by decide)
    (by decide)

theorem near_empty_on_unresolvable_witness :
    (near env7 emptyState 5 2 false).insns = [] :=
  near_empty_on_unresolvable env7 emptyState 5 2 false (Or.inl (by decide))

theorem one_writes_backward_cache_witness :
    c10s.backward_cache c10i.next = some c10i.address ∧
      (get_one_instruction c10env emptyState 99).2.1.backward_cache =
        emptyState.backward_cache :=
  one_writes_backward_cache c10env emptyState 10 c10i c10s c10env emptyState 99 rfl

theorem near_backward_correct_witness :
    List.IsInfix [c3wA, c3wB] (near c3wenv c3wst 12 1 false).insns :=
  near_backward_correct c3wenv c3wst c3wA c3wB 1 false
    (consistent_of_none_memo c3wenv _) (by decide) (by decide) (by decide)
    (by decide) (by decide) (by decide) (by decide) (by decide)

theorem get_disassembler_cached_width_witness :
    ((none : Option Nat) = none → (4 : Nat) ≠ 4 → (4 : Nat) ≠ 8 →
        get_disassembler_cached ("arm") 4 ("little") none =
          Except.error ConfigError.UnsupportedPointerWidth) ∧
      (((4 : Nat) = 4 ∨ (4 : Nat) = 8) →
        get_disassembler_cached ("arm") 4 ("little") none ≠
          Except.error ConfigError.UnsupportedPointerWidth) ∧
      ((none : Option Nat) = some 0 →
        get_disassembler_cached ("arm") 4 ("little") none ≠
          Except.error ConfigError.UnsupportedPointerWidth) :=
  get_disassembler_cached_width ("arm") 4 ("little") none 0 (by decide)

end PwndbgDisasm
